import Mathlib

/-!
Verification of the lifemaxxer content bot (src/bot) against its design
specification.

The Python modules `bot/quote_store.py`, `bot/generator.py`, `bot/cli.py`
and `bot/twitter_client.py` are shallowly embedded below.  Strings are
modelled by Lean `String` (a list of characters, matching Python's
sequence-of-code-points view); Python `int` is modelled by `Int`.
External collaborators (the OpenAI/ollama/HF engines, the tweepy client,
image generation, the random number generator and the clock) are pure
inputs: each is passed in as the value it returns, so every theorem
quantifies over all possible collaborator behaviours.

Python string primitives (`str.strip`, `str.lower`, slicing, `re.sub` of
whitespace runs, decimal `int()`/`str()`) are defined first from their
documented semantics; `str.lower` is modelled on the ASCII range, which is
the range exercised by every claim.
-/

namespace LifeMaxxer

/-- The whitespace characters recognised by Python's `str.strip()` and the
regex class `\s` in the range this code base uses: space, tab, newline,
carriage return, vertical tab and form feed. -/
def pyWs (c : Char) : Bool :=
  c = ' ' || c = '\t' || c = '\n' || c = '\r' || c = Char.ofNat 11 || c = Char.ofNat 12

/-- Python `str.strip()` on a character list: drop whitespace from both ends. -/
def stripL (l : List Char) : List Char :=
  ((l.dropWhile pyWs).reverse.dropWhile pyWs).reverse

/-- Python `str.strip()`. -/
def pyStrip (s : String) : String := ⟨stripL s.data⟩

/-- Python `str.lower()` on one character (ASCII model: A-Z ↦ a-z). -/
def lowerChar (c : Char) : Char :=
  if 65 ≤ c.toNat ∧ c.toNat ≤ 90 then Char.ofNat (c.toNat + 32) else c

/-- Python `str.lower()`. -/
def pyLower (s : String) : String := ⟨s.data.map lowerChar⟩

/-- The substitution `s.replace("—", "-").replace("–", "-")` on one character. -/
def dashChar (c : Char) : Char := if c = '—' ∨ c = '–' then '-' else c

/-- The substitution `re.sub(r"\s+", " ", s)` via a single pass; the flag says whether the
previous character was part of a whitespace run already replaced. -/
def collapseWs : Bool → List Char → List Char
  | _, [] => []
  | b, c :: cs =>
    if pyWs c then
      if b then collapseWs true cs else ' ' :: collapseWs true cs
    else c :: collapseWs false cs

/-- Python slicing `s[:n]` (an `int` bound: a negative `n` counts from the
end, clamped at zero). -/
def pySliceTo (s : String) (n : Int) : String :=
  if n < 0 then ⟨s.data.take (s.data.length - (-n).toNat)⟩
  else ⟨s.data.take n.toNat⟩

/-- Value of a decimal digit list, most significant first. -/
def digitsVal (l : List Char) : Nat :=
  l.foldl (fun a c => a * 10 + (c.toNat - 48)) 0

/-- Decimal digits of `n`, most significant first; the first argument is
recursion fuel (any fuel `≥ n` is enough). -/
def natDigsAux : Nat → Nat → List Char
  | 0, n => [Nat.digitChar n]
  | f + 1, n =>
    if n < 10 then [Nat.digitChar n]
    else natDigsAux f (n / 10) ++ [Nat.digitChar (n % 10)]

/-- Decimal rendering of a natural number (`str` on a non-negative int). -/
def natRepr (n : Nat) : String := ⟨natDigsAux n n⟩

/-- Python `str(i)` for an `int`. -/
def pyStr (n : Int) : String :=
  if n < 0 then ⟨'-' :: natDigsAux n.natAbs n.natAbs⟩ else natRepr n.toNat

/-- Digit-list parse used by `int()`: non-empty all-digit list. -/
def digitsVal? (l : List Char) : Option Nat :=
  if l ≠ [] ∧ l.all Char.isDigit then some (digitsVal l) else none

/-- Python `int(s)`: strip whitespace, optional sign, decimal digits;
`none` models the `ValueError` raised on anything else. -/
def pyToInt (s : String) : Option Int :=
  let l := stripL s.data
  if l.head? = some '-' then (digitsVal? l.tail).map (fun n => -(n : Int))
  else if l.head? = some '+' then (digitsVal? l.tail).map (fun n => (n : Int))
  else (digitsVal? l).map (fun n => (n : Int))

/-!
Embedding of `bot/quote_store.py`.
-/

/-- The normalisation `_normalize_text` of `quote_store.py`: strip, lower,
replace em/en dashes by `-`, collapse whitespace runs to one space. -/
def _normalize_text (s : String) : String :=
  let s1 := pyLower (pyStrip s)
  let s2 : String := ⟨s1.data.map dashChar⟩
  ⟨collapseWs false s2.data⟩

/-- One row of the quote store CSV (all fields are stored as strings,
exactly as `csv.DictReader`/`DictWriter` handle them). -/
structure QRec where
  id : String
  text : String
  author : String
  source : String
  added_at : String
  last_posted_at : String
  times_posted : String
  deriving DecidableEq, Repr

/-- In-memory state of a `QuoteStore`: the loaded `records` list, the keys
of the `_by_norm` dict (in insertion order; only key membership matters to
the embedded operations) and the last persisted contents of the CSV file
(`disk`, written by `_persist`). -/
structure StoreState where
  records : List QRec
  by_norm : List String
  disk : List QRec
  deriving DecidableEq, Repr

/-- One element of the `records` argument of `ingest_quote_records`: a dict
whose `"text"`/`"author"` entries may be absent (`dict.get` returns `None`). -/
structure InRec where
  text : Option String
  author : Option String
  deriving DecidableEq, Repr

/-- The loop body of `ingest_quote_records`: walk the candidate records,
skipping empty texts, counting a duplicate when the normalised text is
already a `_by_norm` key and otherwise appending a fresh record.  `ids`
supplies the `uuid.uuid4()` values consumed by added records and `now` the
`_utc_now_iso()` timestamp. -/
def ingestLoop (src now : String) :
    List InRec → List QRec → List String → List String → Nat → Nat →
    List QRec × List String × Nat × Nat
  | [], recs, byn, _, a, d => (recs, byn, a, d)
  | r :: rest, recs, byn, ids, a, d =>
    match r.text with
    | none => ingestLoop src now rest recs byn ids a d
    | some q =>
      if pyStrip q = "" then ingestLoop src now rest recs byn ids a d
      else
        let norm := _normalize_text q
        if norm ∈ byn then ingestLoop src now rest recs byn ids a (d + 1)
        else
          let rec2 : QRec :=
            { id := ids.headD "", text := pyStrip q, author := r.author.getD "",
              source := src, added_at := now, last_posted_at := "", times_posted := "0" }
          ingestLoop src now rest (recs ++ [rec2]) (byn ++ [norm]) ids.tail (a + 1) d

/-- `QuoteStore.ingest_quote_records(records, source)`: returns the new
store state and the `added`/`duplicates` counters.  `_persist` (the atomic
temp-file swap) is modelled by copying `records` to `disk`; it runs only
when at least one record was added. -/
def ingest_quote_records (s : StoreState) (ins : List InRec) (src : String)
    (ids : List String) (now : String) : StoreState × Nat × Nat :=
  let r := ingestLoop src now ins s.records s.by_norm ids 0 0
  (⟨r.1, r.2.1, if r.2.2.1 > 0 then r.1 else s.disk⟩, r.2.2.1, r.2.2.2)

/-- Result of `datetime.fromisoformat` on a stored `last_posted_at` string:
a parse error (`ValueError`), an offset-naive datetime (which cannot be
compared with the offset-aware cutoff: the comparison raises `TypeError`),
or an offset-aware datetime with its time value (seconds). -/
inductive IsoParse where
  | err : IsoParse
  | naive : IsoParse
  | aware : Int → IsoParse
  deriving DecidableEq, Repr

/-- The eligibility loop of `pick_for_post`: a record is eligible when its
`last_posted_at` is empty, fails to parse, or parses to a time at or before
the cutoff.  A parseable offset-naive value makes `lp_dt <= cutoff` raise,
modelled by `Except.error`. -/
def consOk (r : QRec) : Except Unit (List QRec) → Except Unit (List QRec)
  | .ok es => .ok (r :: es)
  | .error e => .error e

def eligibleLoop (parse : String → IsoParse) (cutoff : Int) :
    List QRec → Except Unit (List QRec)
  | [] => .ok []
  | r :: rest =>
    if r.last_posted_at = "" then consOk r (eligibleLoop parse cutoff rest)
    else
      match parse r.last_posted_at with
      | .err => consOk r (eligibleLoop parse cutoff rest)
      | .naive => .error ()
      | .aware t =>
        if t ≤ cutoff then consOk r (eligibleLoop parse cutoff rest)
        else eligibleLoop parse cutoff rest

/-- Sort key used by the `pick_for_post` fallback:
`r.get("last_posted_at") or "9999-12-31T00:00:00Z"`, compared as a string
(code-point lexicographic, i.e. the order on `List Char`). -/
def sortKey (r : QRec) : List Char :=
  if r.last_posted_at = "" then "9999-12-31T00:00:00Z".data else r.last_posted_at.data

/-- First element of `sorted(records, key=sortKey)`: the earliest record
whose key is minimal (Python's sort is stable). -/
def minByKey : List QRec → Option QRec
  | [] => none
  | r :: rest => some (rest.foldl (fun acc x => if sortKey x < sortKey acc then x else acc) r)

/-- `QuoteStore.pick_for_post(cooldown_days)`.  `parse` is
`datetime.fromisoformat`, `now` the current time in seconds (so the cutoff
is `now - cooldown_days` days), and `k` resolves `random.choice` (every
choice corresponds to some `k`).  `Except.error` models the `TypeError`
escaping to the caller. -/
def pick_for_post (parse : String → IsoParse) (now : Int) (recs : List QRec)
    (cooldown_days : Int) (k : Nat) : Except Unit (Option QRec) :=
  match eligibleLoop parse (now - 86400 * cooldown_days) recs with
  | .error _ => .error ()
  | .ok [] => if recs = [] then .ok none else .ok (minByKey recs)
  | .ok es => .ok (es.get? (k % es.length))

/-- `QuoteStore.mark_posted` on one record dict: set `last_posted_at` to
now, replace `times_posted` by `str(int(times_posted) + 1)`, or `"1"` when
the old value does not parse. -/
def markRec (r : QRec) (now : String) : QRec :=
  { r with
    last_posted_at := now,
    times_posted :=
      match pyToInt r.times_posted with
      | some n => pyStr (n + 1)
      | none => "1" }

/-- `QuoteStore.mark_posted` at store level: mutate the record at index `i`
(the aliased dict inside `self.records`) and persist the full store. -/
def mark_posted (s : StoreState) (i : Nat) (now : String) : StoreState :=
  let recs := s.records.mapIdx (fun j r => if j = i then markRec r now else r)
  ⟨recs, s.by_norm, recs⟩

/-!
Embedding of `bot/generator.py` (`ContentGenerator`).

The three engines (`_try_provider`, `_try_ollama`, `_try_hf`) are external
collaborators: each one is passed in as the `Optional[str]` it returns,
`none` covering every failure mode (missing configuration, exhausted
retries, exceptions).  `random.randrange(len(facts))` in `_fallback` is
resolved by a parameter `k` reduced mod 5, so every possible draw is some
`k`.
-/

/-- The fields of `AppConfig` that the embedded logic reads. -/
structure Config where
  max_length : Int
  dry_run_default : Bool
  deriving DecidableEq, Repr

/-- Test for `marker in clean` followed by `clean.split(marker, 1)[1]`:
returns the text after the first occurrence of `m`, or `none` when `m`
does not occur. -/
def dropAfterMarker (m : List Char) : List Char → Option (List Char)
  | [] => if List.isPrefixOf m [] then some [] else none
  | c :: t =>
    if List.isPrefixOf m (c :: t) then some ((c :: t).drop m.length)
    else dropAfterMarker m t

/-- Python `str.rstrip()` on a character list. -/
def rstripL (l : List Char) : List Char :=
  (l.reverse.dropWhile pyWs).reverse

/-- Characters stripped by `clean.lstrip("-•* ")`. -/
def bulletChar (c : Char) : Bool := c = '-' || c = '•' || c = '*' || c = ' '

/-- The prefix-enforcement step of `_format_fact_out`: unless the text
already starts (case-insensitively) with `"did you know "`, prepend
`"Did you know "` after stripping leading bullet characters. -/
def ensureLeading (l : List Char) : List Char :=
  if List.isPrefixOf "did you know ".data (l.map lowerChar) then l
  else "Did you know ".data ++ l.dropWhile bulletChar

/-- The terminal-punctuation step of `_format_fact_out`: append a period
(after `rstrip`) unless the text already ends in `.` or `?`. -/
def ensureEnd (l : List Char) : List Char :=
  if l.getLast? = some '.' ∨ l.getLast? = some '?' then l
  else rstripL l ++ ['.']

/-- `ContentGenerator._format_fact_out`: normalise raw model output to a
single `"Did you know ..."` fact (empty input stays empty). -/
def _format_fact_out (s : String) : String :=
  if s = "" then ""
  else
    let clean0 := (pyStrip s).data
    let clean1 :=
      match dropAfterMarker "Assistant:".data clean0 with
      | some rest => stripL rest
      | none => clean0
    let clean2 :=
      if (clean1.head? = some '"' ∧ clean1.getLast? = some '"') ∨
         (clean1.head? = some '\'' ∧ clean1.getLast? = some '\'') then
        stripL (clean1.dropLast.drop 1)
      else clean1
    let clean3 :=
      if clean2.head? = some '`' ∧ clean2.getLast? = some '`' then
        stripL (clean2.dropLast.drop 1)
      else clean2
    ⟨ensureEnd (ensureLeading clean3)⟩

/-- The five canned lines of `ContentGenerator._fallback`. -/
def factsList : List String :=
  [ "Did you know octopuses have three hearts?",
    "Did you know honey never spoils? Archaeologists found edible honey in ancient tombs.",
    "Did you know bananas are berries but strawberries aren’t?",
    "Did you know the Eiffel Tower can be 15 cm taller in summer due to heat expansion?",
    "Did you know a day on Venus is longer than its year?" ]

/-- `ContentGenerator._fallback`: pick a canned fact (the draw of
`random.randrange(5)` is `k % 5`) and slice it to `[:max_length]`.  The
`except` branch guarding `import random` is unreachable in the model. -/
def _fallback (cfg : Config) (k : Nat) : String :=
  pySliceTo (factsList.getD (k % 5) "") cfg.max_length

/-- `ContentGenerator._truncate`: clamp the limit to
`min(max(max_length, 1), 275)` and slice. -/
def _truncate (cfg : Config) (s : String) : String :=
  pySliceTo s (min (max cfg.max_length 1) 275)

/-- `ContentGenerator.generate(prompt, preferred_engine)`.  `prov`, `olla`
and `hf` are the values returned by `_try_provider`, `_try_ollama` and
`_try_hf`; `k` resolves the fallback's random draw.  The prompt only flows
into the engines, so it does not appear on the right-hand side.
`engineOf` is the normalisation `(preferred_engine or "auto").strip().lower()`. -/
def engineOf (preferred_engine : String) : String :=
  pyLower (pyStrip (if preferred_engine = "" then "auto" else preferred_engine))

/-- Dispatch and fallback chain of `ContentGenerator.generate`. -/
def generate (cfg : Config) (prov olla hf : Option String) (k : Nat)
    (prompt preferred_engine : String) : String :=
  let engine := engineOf preferred_engine
  if engine = "provider" then _truncate cfg (_format_fact_out (prov.getD ""))
  else if engine = "ollama" then _truncate cfg (_format_fact_out (olla.getD ""))
  else if engine = "hf" then _truncate cfg (_format_fact_out (hf.getD ""))
  else if engine = "fallback" then _truncate cfg (_fallback cfg k)
  else
    if prov.getD "" ≠ "" then _truncate cfg (_format_fact_out (prov.getD ""))
    else if olla.getD "" ≠ "" then _truncate cfg (_format_fact_out (olla.getD ""))
    else if hf.getD "" ≠ "" then _truncate cfg (_format_fact_out (hf.getD ""))
    else _truncate cfg (_fallback cfg k)

/-!
Embedding of `bot/cli.py` (the `post` and `post-quote-image` commands) and
`bot/twitter_client.py`.  Each command is modelled as the sequence of
observable events it performs: status lines printed, and invocations of the
posting collaborator.
-/

/-- Observable events of a CLI command or of `TwitterClient`. -/
inductive Ev where
  | printed : String → Ev
  | createTweet : String → Ev
  | postTweetCall : String → Ev
  | uploadMediaCall : String → Ev
  | markPostedCall : Ev
  | badParam : Ev
  | raised : Ev
  deriving DecidableEq, Repr

/-- Outcome of one `client.create_tweet` attempt inside
`TwitterClient.post_tweet`: a normal response carrying `data.get("id")`
(or no data dict, which yields `none`), a `tweepy.TooManyRequests`, or any
other exception. -/
inductive TweepyRes where
  | ok : Option String → TweepyRes
  | tooMany : TweepyRes
  | err : TweepyRes
  deriving DecidableEq, Repr

/-- `TwitterClient.post_tweet(text, dry_run)`.  `text` is `Optional[str]`
(the `text is None` guard is real code); `attempts i` is what the `i`-th
`create_tweet` call does.  Returns the tweet id and the event trace.  The
`for attempt in range(3)` loop is unrolled: a rate limit sleeps and
retries, any other exception breaks, and exhausting the retries on rate
limits prints a final give-up line. -/
def post_tweet (text : Option String) (dry_run : Bool)
    (attempts : Nat → TweepyRes) : Option String × List Ev :=
  if text = none ∨ pyStrip (text.getD "") = "" then
    (none, [.printed "[error] Empty tweet text; skipping post."])
  else if dry_run then (none, [])
  else
    let t := text.getD ""
    match attempts 0 with
    | .ok id => (id, [.createTweet t])
    | .err => (none, [.createTweet t, .printed "[twitter-error]"])
    | .tooMany =>
      match attempts 1 with
      | .ok id => (id, [.createTweet t, .printed "[rate-limit]", .createTweet t])
      | .err => (none, [.createTweet t, .printed "[rate-limit]", .createTweet t,
                        .printed "[twitter-error]"])
      | .tooMany =>
        match attempts 2 with
        | .ok id => (id, [.createTweet t, .printed "[rate-limit]", .createTweet t,
                          .printed "[rate-limit]", .createTweet t])
        | .err => (none, [.createTweet t, .printed "[rate-limit]", .createTweet t,
                          .printed "[rate-limit]", .createTweet t, .printed "[twitter-error]"])
        | .tooMany =>
          (none, [.createTweet t, .printed "[rate-limit]", .createTweet t,
                  .printed "[rate-limit]", .createTweet t,
                  .printed "[rate-limit] Exhausted retries due to Twitter rate limit; giving up for now."])

/-- The CLI's `ENGINE_CHOICES`. -/
def ENGINE_CHOICES : List String := ["auto", "provider", "ollama", "hf", "fallback"]

/-- The `_sanitize_no_emdash` replacements on one character: em/en dash to
`-`, curly double quotes to `"`, curly apostrophe to `'`. -/
def sanitizeChar (c : Char) : Char :=
  if c = '—' ∨ c = '–' then '-'
  else if c = '“' ∨ c = '”' then '"'
  else if c = '’' then '\'' else c

/-- The CLI helper `_sanitize_no_emdash`. -/
def _sanitize_no_emdash (s : String) : String := ⟨s.data.map sanitizeChar⟩

/-- The CLI helper `_truncate_to_limit`. -/
def _truncate_to_limit (s : String) (limit : Int) : String :=
  pySliceTo s (min (max limit 1) 275)

/-- The `post` CLI command.  `dry_run` is the optional flag (its default is
`config.dry_run_default`), `tweetId` the result of the
`twitter.post_tweet` collaborator call, and the generator engines are the
same abstract inputs as in `generate`. -/
def postCmd (cfg : Config) (dry_run : Option Bool) (prompt engine : String)
    (prov olla hf : Option String) (k : Nat) (tweetId : Option String) : List Ev :=
  if pyLower engine ∉ ENGINE_CHOICES then [.badParam]
  else
    let useDry := dry_run.getD cfg.dry_run_default
    let text := generate cfg prov olla hf k prompt engine
    if text = "" then [.printed "[error] Empty generation result; not posting."]
    else
      [.printed text] ++
        (if useDry then [.printed "[dry-run] Skipping post."]
         else
           .postTweetCall text ::
             (match tweetId with
              | some id => [.printed ("Posted tweet id: " ++ id)]
              | none => [.printed "[skip] No post (rate-limited or error)."]))

/-- The `post-quote-image` CLI command.  The store CSV is `recs`; `parse`,
`now` and `krand` drive `pick_for_post` as above; `tweetId` is the posting
collaborator's result.  Image generation always yields bytes (the duotone
composition fallback is total), so the posting step is always the
`upload_media_and_post` branch; a `TypeError` escaping `pick_for_post`
aborts the command (`.raised`). -/
def postQuoteImageCmd (cfg : Config) (dry_run : Option Bool)
    (parse : String → IsoParse) (now : Int) (recs : List QRec) (krand : Nat)
    (tweetId : Option String) : List Ev :=
  let useDry := dry_run.getD cfg.dry_run_default
  match pick_for_post parse now recs 14 krand with
  | .error _ => [.raised]
  | .ok none =>
    [.printed ("[error] No eligible quotes in store. Ingest CSV or APIs first. count=" ++
               pyStr recs.length)]
  | .ok (some r) =>
    let text := pyStrip r.text
    let author := pyStrip r.author
    let tweet0 := if author ≠ "" then text ++ " --- " ++ author else text
    let tweet := _truncate_to_limit (_sanitize_no_emdash tweet0) cfg.max_length
    if tweet = "" then [.printed "[error] Empty quote text."]
    else
      [.printed tweet] ++
        (if useDry then [.printed "[dry-run] Skipping post."]
         else
           .uploadMediaCall tweet ::
             (match tweetId with
              | some id => [.markPostedCall, .printed ("Posted tweet id: " ++ id)]
              | none => [.printed "[skip] No post (rate-limited or error)."]))

/-!
The recency and cadence tracker.
-/

/-- Modelled from the spec: the Recency & Cadence Tracker of spec section
4.3 (cadence counter, threshold 15, batch trigger) has no implementation
under `src/`; this is the spec's state machine.  On every successful
single post the counter is incremented by 1; when it thereby reaches the
threshold 15 a batch (thread) is triggered and the counter resets to 0.
The result is the new counter paired with whether a batch was triggered. -/
def cadenceStep (c : Int) : Int × Bool :=
  if c + 1 ≥ 15 then (0, true) else (c + 1, false)

/-- Modelled from the spec: counter value after `n` successful single
posts, starting from the initial state 0. -/
def cadenceIter : Nat → Int
  | 0 => 0
  | n + 1 => (cadenceStep (cadenceIter n)).1

/-- The cooldown predicate of claim C3: a record counts as posted within
`cooldown_days` of now when its `last_posted_at` is a non-empty string
parsing to an offset-aware time strictly later than the cutoff
(`now - cooldown_days`, in seconds). -/
def inCooldown (parse : String → IsoParse) (cutoff : Int) (r : QRec) : Prop :=
  r.last_posted_at ≠ "" ∧
    ∃ t : Int, parse r.last_posted_at = IsoParse.aware t ∧ cutoff < t

/-- Concrete `datetime.fromisoformat` behaviour on the two timestamps of
the C3 counterexample, measured in seconds from 2026-01-01T00:00:00 UTC:
`05:00:00+00:00` is 18000 s and `10:00:00+09:00` is 01:00 UTC, 3600 s. -/
def cxParse (s : String) : IsoParse :=
  if s = "2026-01-01T05:00:00+00:00" then IsoParse.aware 18000
  else if s = "2026-01-01T10:00:00+09:00" then IsoParse.aware 3600
  else IsoParse.err

/-- C3 counterexample record posted at 05:00 UTC (the lexicographically
smaller timestamp string, but the chronologically newer one). -/
def cxRecA : QRec :=
  ⟨"a", "quote a", "", "src", "", "2026-01-01T05:00:00+00:00", "1"⟩

/-- C3 counterexample record posted at 01:00 UTC, written with a +09:00
offset (the chronologically older post, lexicographically larger string). -/
def cxRecB : QRec :=
  ⟨"b", "quote b", "", "src", "", "2026-01-01T10:00:00+09:00", "1"⟩

/-- C10 witness record: a non-empty `last_posted_at` that is not an ISO
timestamp. -/
def cxRecU : QRec := ⟨"u", "q", "", "s", "", "not-a-date", "0"⟩

/-!
Definitions for claim C4: a syntactic notion of "variant differing only in
letter case, whitespace runs, or em/en dashes", written from the claim's
words (independently of `_normalize_text`, which is translated from the
source) so that the dedup claim relates the two.
-/

/-- Canonical form of one character under case folding and dash
unification: lower-case it, then map em/en dashes to `-`. -/
def charKey (c : Char) : Char := dashChar (lowerChar c)

/-- Texts differing only in letter case, whitespace runs, or em/en
dashes: characters agree up to `charKey` pointwise, and maximal whitespace
runs may be replaced by other non-empty whitespace runs.  The relation is
applied to stripped texts (leading/trailing whitespace is separately
irrelevant to ingestion). -/
inductive CwdVar : List Char → List Char → Prop where
  | nil : CwdVar [] []
  | cons : ∀ (c d : Char) (cs ds : List Char), charKey c = charKey d →
      pyWs c = false → pyWs d = false → CwdVar cs ds → CwdVar (c :: cs) (d :: ds)
  | ws : ∀ (u v cs ds : List Char), u ≠ [] → v ≠ [] →
      (∀ c ∈ u, pyWs c = true) → (∀ c ∈ v, pyWs c = true) →
      CwdVar cs ds → CwdVar (u ++ cs) (v ++ ds)

/-!
Helper lemmas.
-/

theorem mk_eq_empty_iff (l : List Char) : (⟨l⟩ : String) = "" ↔ l = [] := by
  constructor
  · intro h
    have := congrArg String.data h
    simpa using this
  · intro h
    subst h
    rfl

theorem pySliceTo_empty (n : Int) : pySliceTo "" n = "" := by
  unfold pySliceTo
  split <;> simp [mk_eq_empty_iff]

theorem pySliceTo_ne (s : String) (n : Int) (hn : 1 ≤ n) (hs : s ≠ "") :
    pySliceTo s n ≠ "" := by
  obtain ⟨l⟩ := s
  have hl : l ≠ [] := by
    intro h
    exact hs (by rw [h])
  unfold pySliceTo
  rw [if_neg (by omega)]
  rw [Ne, mk_eq_empty_iff, List.take_eq_nil_iff]
  rintro (h | h) <;> first | exact hl h | omega

theorem truncate_empty (cfg : Config) : _truncate cfg "" = "" := by
  unfold _truncate
  exact pySliceTo_empty _

theorem truncate_ne (cfg : Config) (s : String) (hs : s ≠ "") :
    _truncate cfg s ≠ "" := by
  unfold _truncate
  exact pySliceTo_ne s _ (by omega) hs

/-!
Claim C5: truncation clamps the limit to `min(max(limit, 1), 275)`.
-/

/-- C5.  Truncation (both `ContentGenerator._truncate` and the CLI's
`_truncate_to_limit`) clamps the effective limit to
`min(max(configured_limit, 1), 275)`: the result never exceeds 275
characters, a non-positive configured limit behaves exactly as a limit of
1 (never as unlimited, and without error), and a positive limit `l` keeps
at most `min l 275` characters. -/
theorem truncate_clamp_C5 (cfg : Config) (l : Int) (s : String) :
    (_truncate cfg s).data.length ≤ 275 ∧
    (_truncate_to_limit s l).data.length ≤ 275 ∧
    _truncate cfg s = pySliceTo s (min (max cfg.max_length 1) 275) ∧
    _truncate_to_limit s l = pySliceTo s (min (max l 1) 275) ∧
    (cfg.max_length ≤ 0 → _truncate cfg s = pySliceTo s 1) ∧
    (l ≤ 0 → _truncate_to_limit s l = pySliceTo s 1) ∧
    (1 ≤ l → (_truncate_to_limit s l).data.length ≤ (min l 275).toNat) := by
  have len : ∀ n : Int, 1 ≤ n → (pySliceTo s n).data.length ≤ n.toNat := by
    intro n hn
    unfold pySliceTo
    rw [if_neg (by omega)]
    simp [List.length_take]
  refine ⟨?_, ?_, rfl, rfl, ?_, ?_, ?_⟩
  · have h := len (min (max cfg.max_length 1) 275) (by omega)
    calc (_truncate cfg s).data.length
        ≤ (min (max cfg.max_length 1) 275).toNat := h
      _ ≤ 275 := by omega
  · have h := len (min (max l 1) 275) (by omega)
    calc (_truncate_to_limit s l).data.length
        ≤ (min (max l 1) 275).toNat := h
      _ ≤ 275 := by omega
  · intro h
    unfold _truncate
    congr 1
    omega
  · intro h
    unfold _truncate_to_limit
    congr 1
    omega
  · intro h
    have h2 : min (max l 1) 275 = min l 275 := by omega
    unfold _truncate_to_limit
    rw [h2]
    exact len _ (by omega)

/-- C5 witness: the theorem at a concrete configuration and text. -/
theorem truncate_clamp_C5_witness :
    (_truncate ⟨0, true⟩ "hello").data.length ≤ 275 ∧
    (_truncate_to_limit "hello" (-3)).data.length ≤ 275 ∧
    _truncate ⟨0, true⟩ "hello" = pySliceTo "hello" (min (max (0 : Int) 1) 275) ∧
    _truncate_to_limit "hello" (-3) = pySliceTo "hello" (min (max (-3 : Int) 1) 275) ∧
    ((0 : Int) ≤ 0 → _truncate ⟨0, true⟩ "hello" = pySliceTo "hello" 1) ∧
    ((-3 : Int) ≤ 0 → _truncate_to_limit "hello" (-3) = pySliceTo "hello" 1) ∧
    ((1 : Int) ≤ -3 → (_truncate_to_limit "hello" (-3)).data.length ≤ ((-3 : Int) ⊓ 275).toNat) :=
  truncate_clamp_C5 ⟨0, true⟩ (-3) "hello"

/-!
Claim C6: the cadence counter (modelled from the spec, section 4.3).
-/

/-- C6.  The cadence counter is non-negative, always equals the number of
successful single posts modulo 15, a successful single post increments it
by exactly 1 when that does not reach the threshold, and it resets to 0
exactly when the incremented value reaches 15 (which is also exactly when
the batch is triggered). -/
theorem cadence_counter_C6 (n : Nat) :
    0 ≤ cadenceIter n ∧
    cadenceIter n = ((n % 15 : Nat) : Int) ∧
    cadenceStep (cadenceIter n) =
      (if cadenceIter n = 14 then ((0 : Int), true) else (cadenceIter n + 1, false)) := by
  have key : ∀ m : Nat, cadenceIter m = ((m % 15 : Nat) : Int) := by
    intro m
    induction m with
    | zero => simp [cadenceIter]
    | succ p ih =>
      show (cadenceStep (cadenceIter p)).1 = _
      rw [ih]
      unfold cadenceStep
      by_cases h : p % 15 = 14
      · rw [if_pos (by push_cast; omega)]
        have : (p + 1) % 15 = 0 := by omega
        simp [this]
      · have hlt : p % 15 < 14 := by omega
        rw [if_neg (by push_cast; omega)]
        have : (p + 1) % 15 = p % 15 + 1 := by omega
        rw [this]
        push_cast
        ring
  refine ⟨by rw [key]; positivity, key n, ?_⟩
  rw [key n]
  unfold cadenceStep
  by_cases h : n % 15 = 14
  · rw [if_pos (by push_cast; omega), if_pos (by push_cast; omega)]
  · have hlt : n % 15 < 14 := by omega
    rw [if_neg (by push_cast; omega), if_neg (by push_cast; omega)]

/-!
Claims C1 and C2: the generation fallback chain.
-/

theorem ensureEnd_ne_nil (l : List Char) : ensureEnd l ≠ [] := by
  unfold ensureEnd
  split
  · next h =>
    rcases h with h | h <;>
      · intro hl
        rw [hl] at h
        simp at h
  · simp

theorem format_ne (s : String) (hs : s ≠ "") : _format_fact_out s ≠ "" := by
  unfold _format_fact_out
  rw [if_neg hs]
  rw [Ne, mk_eq_empty_iff]
  exact ensureEnd_ne_nil _

theorem fallback_ne (cfg : Config) (k : Nat) (h : 1 ≤ cfg.max_length) :
    _fallback cfg k ≠ "" := by
  unfold _fallback
  have h5 : k % 5 = 0 ∨ k % 5 = 1 ∨ k % 5 = 2 ∨ k % 5 = 3 ∨ k % 5 = 4 := by omega
  rcases h5 with h5 | h5 | h5 | h5 | h5 <;> rw [h5] <;>
    exact pySliceTo_ne _ _ h (by decide)

/-- C1 counterexample: with the reachable configuration `MAX_LENGTH=0`
(`AppConfig.load` parses any integer from the environment) and no engine
producing text, `generate(prompt, "auto")` returns the empty string — the
fallback fact is sliced by the unclamped `[:max_length]` in `_fallback`
before `_truncate`'s clamp can act. -/
theorem generate_auto_empty_C1_counterexample :
    generate ⟨0, true⟩ none none none 0 "tell me a fact" "auto" = "" := by decide

/-- C1 (amended).  For every prompt (the engines see it; they are
quantified over all behaviours), every configuration whose `max_length` is
at least 1, every engine outcome and every random draw, `generate` in
`"auto"` mode returns a non-empty string: if all three engines fail or
produce no text, the deterministic fallback supplies a non-empty result. -/
theorem generate_auto_nonempty_C1 (cfg : Config) (prov olla hf : Option String)
    (k : Nat) (prompt : String) (h : 1 ≤ cfg.max_length) :
    generate cfg prov olla hf k prompt "auto" ≠ "" := by
  have he : engineOf "auto" = "auto" := by decide
  unfold generate
  rw [he]
  rw [if_neg (by decide), if_neg (by decide), if_neg (by decide), if_neg (by decide)]
  by_cases h1 : prov.getD "" = ""
  · rw [h1]
    by_cases h2 : olla.getD "" = ""
    · rw [h2]
      by_cases h3 : hf.getD "" = ""
      · rw [h3]
        simp only [ne_eq, not_true_eq_false, if_false]
        exact truncate_ne cfg _ (fallback_ne cfg k h)
      · rw [if_neg (by simp), if_neg (by simp), if_pos h3]
        exact truncate_ne cfg _ (format_ne _ h3)
    · rw [if_neg (by simp), if_pos h2]
      exact truncate_ne cfg _ (format_ne _ h2)
  · rw [if_pos h1]
    exact truncate_ne cfg _ (format_ne _ h1)

/-- C1 witness: the amended theorem applied at `max_length = 220` with all
engines failing. -/
theorem generate_auto_nonempty_C1_witness :
    (1 : Int) ≤ 220 ∧ generate ⟨220, true⟩ none none none 0 "tell me a fact" "auto" ≠ "" :=
  ⟨by norm_num, generate_auto_nonempty_C1 ⟨220, true⟩ none none none 0 "tell me a fact" (by norm_num)⟩

/-- C2 counterexample: with the default configuration, selecting the
`provider` engine explicitly while the provider fails (returns `None`)
makes `generate` return the empty string — `_format_fact_out("")` is `""`
and no fallback runs — contradicting the claim that the deterministic
heuristic fallback is used and the result is never empty. -/
theorem generate_explicit_empty_C2_counterexample :
    generate ⟨220, true⟩ none none none 0 "tell me a fact" "provider" = "" := by decide

/-- C2 (amended).  When an explicit engine among `provider`, `ollama`,
`hf` is selected and that engine fails (`None`) or produces the empty
string, `generate` returns the empty string: the deterministic heuristic
fallback is not applied (only `preferred_engine="fallback"` uses it). -/
theorem generate_explicit_failure_empty_C2 (cfg : Config)
    (prov olla hf : Option String) (k : Nat) (prompt e : String)
    (h : (engineOf e = "provider" ∧ (prov = none ∨ prov = some "")) ∨
         (engineOf e = "ollama" ∧ (olla = none ∨ olla = some "")) ∨
         (engineOf e = "hf" ∧ (hf = none ∨ hf = some ""))) :
    generate cfg prov olla hf k prompt e = "" := by
  have hempty : ∀ o : Option String, o = none ∨ o = some "" → o.getD "" = "" := by
    rintro o (rfl | rfl) <;> rfl
  unfold generate
  rcases h with ⟨he, ho⟩ | ⟨he, ho⟩ | ⟨he, ho⟩ <;> rw [he]
  · rw [if_pos rfl, hempty _ ho]
    rw [show _format_fact_out "" = "" from rfl]
    exact truncate_empty cfg
  · rw [if_neg (by decide), if_pos rfl, hempty _ ho]
    rw [show _format_fact_out "" = "" from rfl]
    exact truncate_empty cfg
  · rw [if_neg (by decide), if_neg (by decide), if_pos rfl, hempty _ ho]
    rw [show _format_fact_out "" = "" from rfl]
    exact truncate_empty cfg

/-- C2 witness: the amended theorem applied to the `ollama` engine
returning the empty string. -/
theorem generate_explicit_failure_empty_C2_witness :
    generate ⟨220, true⟩ (some "unused") (some "") none 0 "x" "ollama" = "" :=
  generate_explicit_failure_empty_C2 ⟨220, true⟩ (some "unused") (some "") none 0 "x" "ollama"
    (Or.inr (Or.inl ⟨by decide, Or.inr rfl⟩))

/-!
Claim C7: empty tweet text is never posted.
-/

/-- C7.  For every `text` that is `None`, empty, or whitespace-only,
`TwitterClient.post_tweet` reports the skip status line and returns
`None`, whatever the dry-run flag and whatever the tweepy client would do:
no `create_tweet` call is ever attempted (so no client exception can
arise, and none propagates — the function is total in the model). -/
theorem post_tweet_empty_skip_C7 (text : Option String) (dry : Bool)
    (attempts : Nat → TweepyRes)
    (h : text = none ∨ pyStrip (text.getD "") = "") :
    post_tweet text dry attempts =
      (none, [.printed "[error] Empty tweet text; skipping post."]) ∧
    ∀ t, Ev.createTweet t ∉ (post_tweet text dry attempts).2 := by
  have hp : post_tweet text dry attempts =
      (none, [.printed "[error] Empty tweet text; skipping post."]) := by
    unfold post_tweet
    rw [if_pos h]
  refine ⟨hp, ?_⟩
  intro t
  rw [hp]
  simp

/-- C7 witness: whitespace-only text, with a client that would succeed. -/
theorem post_tweet_empty_skip_C7_witness :
    pyStrip ((some "   " : Option String).getD "") = "" ∧
    post_tweet (some "   ") false (fun _ => .ok (some "id1")) =
      (none, [.printed "[error] Empty tweet text; skipping post."]) ∧
    Ev.createTweet "x" ∉ (post_tweet (some "   ") false (fun _ => .ok (some "id1"))).2 :=
  ⟨by decide,
   (post_tweet_empty_skip_C7 (some "   ") false (fun _ => .ok (some "id1")) (Or.inr (by decide))).1,
   (post_tweet_empty_skip_C7 (some "   ") false (fun _ => .ok (some "id1")) (Or.inr (by decide))).2 "x"⟩

/-!
Claim C8: `mark_posted` counting.  First the decimal round trip
`int(str(n)) = n` for the model's `str`/`int`.
-/

theorem digitChar_toNat (m : Nat) (h : m < 10) : (Nat.digitChar m).toNat - 48 = m := by
  interval_cases m <;> decide

theorem digitChar_isDigit (m : Nat) (h : m < 10) : (Nat.digitChar m).isDigit = true := by
  interval_cases m <;> decide

theorem digitsVal_concat (l : List Char) (c : Char) :
    digitsVal (l ++ [c]) = digitsVal l * 10 + (c.toNat - 48) := by
  unfold digitsVal
  rw [List.foldl_concat]

theorem natDigsAux_spec (f : Nat) :
    ∀ n, n ≤ f →
      (natDigsAux f n).all Char.isDigit = true ∧
      digitsVal (natDigsAux f n) = n ∧ natDigsAux f n ≠ [] := by
  induction f with
  | zero =>
    intro n hn
    have : n = 0 := by omega
    subst this
    refine ⟨by decide, by decide, by decide⟩
  | succ f ih =>
    intro n hn
    unfold natDigsAux
    by_cases h10 : n < 10
    · rw [if_pos h10]
      refine ⟨by simp [digitChar_isDigit n h10], ?_, by simp⟩
      have hd := digitChar_toNat n h10
      show digitsVal [Nat.digitChar n] = n
      unfold digitsVal
      simp only [List.foldl_cons, List.foldl_nil]
      omega
    · rw [if_neg h10]
      have hdiv : n / 10 ≤ f := by omega
      obtain ⟨ha, hv, hne⟩ := ih (n / 10) hdiv
      refine ⟨?_, ?_, by simp⟩
      · rw [List.all_append, ha]
        simp [digitChar_isDigit (n % 10) (by omega)]
      · rw [digitsVal_concat, hv, digitChar_toNat (n % 10) (by omega)]
        omega

theorem natRepr_spec (n : Nat) :
    (natRepr n).data.all Char.isDigit = true ∧
    digitsVal (natRepr n).data = n ∧ (natRepr n).data ≠ [] :=
  natDigsAux_spec n n le_rfl

theorem pyWs_of_isDigit (c : Char) (h : c.isDigit = true) : pyWs c = false := by
  unfold pyWs
  by_cases h1 : c = ' '
  · rw [h1] at h; exact absurd h (by decide)
  by_cases h2 : c = '\t'
  · rw [h2] at h; exact absurd h (by decide)
  by_cases h3 : c = '\n'
  · rw [h3] at h; exact absurd h (by decide)
  by_cases h4 : c = '\r'
  · rw [h4] at h; exact absurd h (by decide)
  by_cases h5 : c = Char.ofNat 11
  · rw [h5] at h; exact absurd h (by decide)
  by_cases h6 : c = Char.ofNat 12
  · rw [h6] at h; exact absurd h (by decide)
  simp [h1, h2, h3, h4, h5, h6]

theorem dropWhile_eq_self_of (p : Char → Bool) (l : List Char)
    (h : ∀ c ∈ l, p c = false) : l.dropWhile p = l := by
  cases l with
  | nil => rfl
  | cons c t =>
    rw [List.dropWhile_cons]
    rw [h c (by simp)]
    simp

theorem stripL_of_no_ws (l : List Char) (h : ∀ c ∈ l, pyWs c = false) :
    stripL l = l := by
  unfold stripL
  rw [dropWhile_eq_self_of pyWs l h]
  rw [dropWhile_eq_self_of pyWs l.reverse (by intro c hc; exact h c (List.mem_reverse.mp hc))]
  exact List.reverse_reverse l

theorem pyToInt_natRepr (n : Nat) : pyToInt (natRepr n) = some (n : Int) := by
  obtain ⟨ha, hv, hne⟩ := natRepr_spec n
  have hstrip : stripL (natRepr n).data = (natRepr n).data := by
    apply stripL_of_no_ws
    intro c hc
    exact pyWs_of_isDigit c (by rw [List.all_eq_true] at ha; exact ha c hc)
  unfold pyToInt
  rw [hstrip]
  obtain ⟨c, t, hct⟩ := List.exists_cons_of_ne_nil hne
  have hcd : c.isDigit = true := by
    rw [List.all_eq_true] at ha
    exact ha c (by rw [hct]; simp)
  have hcm : c ≠ '-' := by
    intro h
    rw [h] at hcd
    exact absurd hcd (by decide)
  have hcp : c ≠ '+' := by
    intro h
    rw [h] at hcd
    exact absurd hcd (by decide)
  rw [hct]
  rw [if_neg (by simp [hcm]), if_neg (by simp [hcp])]
  unfold digitsVal?
  rw [if_pos ⟨by simp, by rw [← hct]; exact ha⟩]
  rw [← hct, hv]
  rfl

theorem pyStr_natCast (n : Nat) : pyStr (n : Int) = natRepr n := by
  unfold pyStr
  rw [if_neg (by omega)]
  simp

theorem markRec_fold (ts : List String) :
    ∀ (r : QRec) (k : Nat), r.times_posted = natRepr k →
      ((ts.foldl markRec r).times_posted = natRepr (k + ts.length) ∧
       (ts.foldl markRec r).last_posted_at = ts.getLastD r.last_posted_at) := by
  induction ts with
  | nil =>
    intro r k hk
    simpa using hk
  | cons t ts ih =>
    intro r k hk
    have ht : (markRec r t).times_posted = natRepr (k + 1) := by
      unfold markRec
      rw [hk, pyToInt_natRepr k]
      show pyStr ((k : Int) + 1) = natRepr (k + 1)
      rw [show (k : Int) + 1 = ((k + 1 : Nat) : Int) by push_cast; ring, pyStr_natCast]
    have hl : (markRec r t).last_posted_at = t := rfl
    rw [List.foldl_cons]
    obtain ⟨h1, h2⟩ := ih (markRec r t) (k + 1) ht
    constructor
    · rw [h1]
      congr 1
      simp
      omega
    · rw [h2, hl, List.getLastD_cons]

/-- C8.  Starting from `times_posted = "0"`, after the calls
`mark_posted` performs on a record with timestamps `ts` (one per call),
`times_posted` holds the decimal rendering of `N = len(ts)` (so it parses
back to `N`), and `last_posted_at` is the timestamp of the most recent
call; at store level each `mark_posted` call persists the full store
(`disk` equals `records` afterwards). -/
theorem mark_posted_counts_C8 (r : QRec) (ts : List String) (s : StoreState)
    (i : Nat) (now : String) (h0 : r.times_posted = "0") :
    (ts.foldl markRec r).times_posted = natRepr ts.length ∧
    pyToInt ((ts.foldl markRec r).times_posted) = some (ts.length : Int) ∧
    (ts ≠ [] → (ts.foldl markRec r).last_posted_at = ts.getLastD "") ∧
    (mark_posted s i now).disk = (mark_posted s i now).records := by
  have h0' : r.times_posted = natRepr 0 := by rw [h0]; decide
  obtain ⟨h1, h2⟩ := markRec_fold ts r 0 h0'
  rw [Nat.zero_add] at h1
  refine ⟨h1, by rw [h1]; exact pyToInt_natRepr _, ?_, rfl⟩
  intro hne
  rw [h2]
  cases ts with
  | nil => exact absurd rfl hne
  | cons t ts => rw [List.getLastD_cons, List.getLastD_cons]

/-- C8 witness: two `mark_posted` calls on a fresh record; the counter
reads `"2"`, parses back to 2, and the last timestamp is the second call's. -/
theorem mark_posted_counts_C8_witness :
    (⟨"i", "q", "a", "s", "d", "", "0"⟩ : QRec).times_posted = "0" ∧
    ((["T1", "T2"].foldl markRec ⟨"i", "q", "a", "s", "d", "", "0"⟩).times_posted = natRepr 2 ∧
     pyToInt ((["T1", "T2"].foldl markRec ⟨"i", "q", "a", "s", "d", "", "0"⟩).times_posted) =
       some (2 : Int) ∧
     (["T1", "T2"].foldl markRec ⟨"i", "q", "a", "s", "d", "", "0"⟩).last_posted_at =
       ["T1", "T2"].getLastD "" ∧
     (mark_posted ⟨[], [], []⟩ 0 "N").disk = (mark_posted ⟨[], [], []⟩ 0 "N").records) := by
  have h := mark_posted_counts_C8 ⟨"i", "q", "a", "s", "d", "", "0"⟩ ["T1", "T2"]
    ⟨[], [], []⟩ 0 "N" rfl
  exact ⟨rfl, h.1, h.2.1, h.2.2.1 (by decide), h.2.2.2⟩

/-!
Claim C4: ingest deduplication across case/whitespace/dash variants.
-/

theorem collapseWs_cons (b : Bool) (c : Char) (cs : List Char) :
    collapseWs b (c :: cs) =
      if pyWs c then (if b then collapseWs true cs else ' ' :: collapseWs true cs)
      else c :: collapseWs false cs := rfl

theorem pyWs_lowerChar (c : Char) : pyWs (lowerChar c) = pyWs c := by
  unfold lowerChar
  split
  · next h =>
    obtain ⟨h1, h2⟩ := h
    have hne : ∀ w : Char, w.toNat < 65 → c ≠ w := by
      intro w hw hcw
      rw [hcw] at h1
      omega
    have hws : pyWs c = false := by
      unfold pyWs
      simp [hne ' ' (by decide), hne '\t' (by decide), hne '\n' (by decide),
            hne '\r' (by decide), hne (Char.ofNat 11) (by decide), hne (Char.ofNat 12) (by decide)]
    rw [hws]
    generalize hg : c.toNat = m at h1 h2
    interval_cases m <;> decide
  · rfl

theorem pyWs_dashChar (c : Char) : pyWs (dashChar c) = pyWs c := by
  unfold dashChar
  split
  · next h => rcases h with h | h <;> subst h <;> decide
  · rfl

theorem pyWs_charKey (c : Char) : pyWs (charKey c) = pyWs c := by
  unfold charKey
  rw [pyWs_dashChar, pyWs_lowerChar]

theorem collapse_ws_run (u : List Char) (hu : u ≠ []) (hws : ∀ c ∈ u, pyWs c = true) :
    ∀ (rest : List Char) (b : Bool),
      collapseWs b (u ++ rest) =
        if b then collapseWs true rest else ' ' :: collapseWs true rest := by
  induction u with
  | nil => exact absurd rfl hu
  | cons x u ih =>
    intro rest b
    rw [List.cons_append, collapseWs_cons, if_pos (hws x (by simp))]
    cases u with
    | nil => simp
    | cons y u2 =>
      have h2 := ih (by simp) (by intro c hc; exact hws c (by simp [hc])) rest true
      rw [if_pos rfl] at h2
      rw [h2]

theorem var_collapse {l l' : List Char} (h : CwdVar l l') :
    ∀ b : Bool, collapseWs b (l.map charKey) = collapseWs b (l'.map charKey) := by
  induction h with
  | nil => intro b; rfl
  | cons c d cs ds hk hc hd _ ih =>
    intro b
    rw [List.map_cons, List.map_cons, collapseWs_cons, collapseWs_cons]
    rw [pyWs_charKey c, pyWs_charKey d, hc, hd]
    simp only [if_false, Bool.false_eq_true]
    rw [hk, ih false]
  | ws u v cs ds hu hv hwu hwv _ ih =>
    intro b
    rw [List.map_append, List.map_append]
    rw [collapse_ws_run (u.map charKey) (by simp [hu])
          (by intro c hc; obtain ⟨x, hx, rfl⟩ := List.mem_map.mp hc
              rw [pyWs_charKey]; exact hwu x hx)]
    rw [collapse_ws_run (v.map charKey) (by simp [hv])
          (by intro c hc; obtain ⟨x, hx, rfl⟩ := List.mem_map.mp hc
              rw [pyWs_charKey]; exact hwv x hx)]
    rw [ih true]

theorem var_nonempty {l l' : List Char} (h : CwdVar l l') : l = [] ↔ l' = [] := by
  induction h with
  | nil => simp
  | cons c d cs ds _ _ _ _ _ => simp
  | ws u v cs ds hu hv _ _ _ _ => simp [hu, hv]

theorem norm_of_var (t t' : String) (h : CwdVar (pyStrip t).data (pyStrip t').data) :
    _normalize_text t = _normalize_text t' := by
  unfold _normalize_text
  apply String.ext
  show collapseWs false ((pyLower (pyStrip t)).data.map dashChar) =
       collapseWs false ((pyLower (pyStrip t')).data.map dashChar)
  simp only [pyLower]
  rw [List.map_map, List.map_map]
  exact var_collapse h false

theorem strip_ne_of_var (t t' : String) (h : CwdVar (pyStrip t).data (pyStrip t').data)
    (ht : pyStrip t ≠ "") : pyStrip t' ≠ "" := by
  intro he
  apply ht
  apply String.ext
  have : (pyStrip t').data = [] := by rw [he]
  have h2 := (var_nonempty h).mpr this
  simpa using h2

theorem ingest_single (s : StoreState) (t : String) (a : Option String)
    (src : String) (ids : List String) (now : String) (ht : pyStrip t ≠ "") :
    ingest_quote_records s [⟨some t, a⟩] src ids now =
      if _normalize_text t ∈ s.by_norm then (s, 0, 1)
      else
        (⟨s.records ++ [⟨ids.headD "", pyStrip t, a.getD "", src, now, "", "0"⟩],
          s.by_norm ++ [_normalize_text t],
          s.records ++ [⟨ids.headD "", pyStrip t, a.getD "", src, now, "", "0"⟩]⟩, 1, 0) := by
  by_cases hmem : _normalize_text t ∈ s.by_norm
  · rw [if_pos hmem]
    have hloop : ingestLoop src now [⟨some t, a⟩] s.records s.by_norm ids 0 0 =
        (s.records, s.by_norm, 0, 1) := by
      simp only [ingestLoop]
      rw [if_neg ht]
      simp only [hmem, if_true]
    unfold ingest_quote_records
    rw [hloop]
    rfl
  · rw [if_neg hmem]
    have hloop : ingestLoop src now [⟨some t, a⟩] s.records s.by_norm ids 0 0 =
        (s.records ++ [⟨ids.headD "", pyStrip t, a.getD "", src, now, "", "0"⟩],
         s.by_norm ++ [_normalize_text t], 1, 0) := by
      simp only [ingestLoop]
      rw [if_neg ht]
      simp only [hmem, if_false]
    unfold ingest_quote_records
    rw [hloop]
    rfl

/-- C4.  If a non-empty text `t` has been ingested once (into any store
state), then ingesting any variant `t'` differing only in letter case,
whitespace runs, or em/en dashes reports exactly one duplicate, adds
nothing, and leaves the record list (hence the record count) unchanged. -/
theorem ingest_variant_duplicate_C4 (s : StoreState) (t t' : String)
    (a a' : Option String) (src src' : String) (ids ids' : List String)
    (now now' : String) (ht : pyStrip t ≠ "")
    (hvar : CwdVar (pyStrip t).data (pyStrip t').data) :
    (ingest_quote_records (ingest_quote_records s [⟨some t, a⟩] src ids now).1
        [⟨some t', a'⟩] src' ids' now').2.1 = 0 ∧
    (ingest_quote_records (ingest_quote_records s [⟨some t, a⟩] src ids now).1
        [⟨some t', a'⟩] src' ids' now').2.2 = 1 ∧
    (ingest_quote_records (ingest_quote_records s [⟨some t, a⟩] src ids now).1
        [⟨some t', a'⟩] src' ids' now').1.records =
      (ingest_quote_records s [⟨some t, a⟩] src ids now).1.records := by
  have ht' := strip_ne_of_var t t' hvar ht
  have hnorm : _normalize_text t' = _normalize_text t := (norm_of_var t t' hvar).symm
  have hmem1 : _normalize_text t ∈ (ingest_quote_records s [⟨some t, a⟩] src ids now).1.by_norm := by
    rw [ingest_single s t a src ids now ht]
    by_cases hmem : _normalize_text t ∈ s.by_norm
    · rw [if_pos hmem]
      exact hmem
    · rw [if_neg hmem]
      simp
  rw [ingest_single _ t' a' src' ids' now' ht']
  rw [if_pos (by rw [hnorm]; exact hmem1)]
  exact ⟨rfl, rfl, rfl⟩

/-- C4 witness: ingesting `"A b"` into an empty store, then the
case/whitespace variant `"a  B"`, yields one duplicate and no growth. -/
theorem ingest_variant_duplicate_C4_witness :
    (ingest_quote_records (ingest_quote_records ⟨[], [], []⟩ [⟨some "A b", none⟩] "s1" [] "n1").1
        [⟨some "a  B", none⟩] "s2" [] "n2").2.1 = 0 ∧
    (ingest_quote_records (ingest_quote_records ⟨[], [], []⟩ [⟨some "A b", none⟩] "s1" [] "n1").1
        [⟨some "a  B", none⟩] "s2" [] "n2").2.2 = 1 ∧
    (ingest_quote_records (ingest_quote_records ⟨[], [], []⟩ [⟨some "A b", none⟩] "s1" [] "n1").1
        [⟨some "a  B", none⟩] "s2" [] "n2").1.records =
      (ingest_quote_records ⟨[], [], []⟩ [⟨some "A b", none⟩] "s1" [] "n1").1.records := by
  have h1 : (pyStrip "A b").data = ['A', ' ', 'b'] := by decide
  have h2 : (pyStrip "a  B").data = ['a', ' ', ' ', 'B'] := by decide
  have hv : CwdVar (pyStrip "A b").data (pyStrip "a  B").data := by
    rw [h1, h2]
    exact CwdVar.cons 'A' 'a' [' ', 'b'] [' ', ' ', 'B'] (by decide) (by decide) (by decide)
      (CwdVar.ws [' '] [' ', ' '] ['b'] ['B'] (by decide) (by decide) (by decide) (by decide)
        (CwdVar.cons 'b' 'B' [] [] (by decide) (by decide) (by decide) CwdVar.nil))
  exact ingest_variant_duplicate_C4 ⟨[], [], []⟩ "A b" "a  B" none none "s1" "s2" [] [] "n1" "n2"
    (by decide) hv

/-!
Claims C3 and C10: `pick_for_post`.
-/

theorem eligibleLoop_ok_mem (parse : String → IsoParse) (cutoff : Int) :
    ∀ (recs es : List QRec), eligibleLoop parse cutoff recs = .ok es →
      ∀ r ∈ es, r ∈ recs ∧ ¬ inCooldown parse cutoff r := by
  intro recs
  induction recs with
  | nil =>
    intro es h r hr
    simp only [eligibleLoop] at h
    cases h
    simp at hr
  | cons x rest ih =>
    intro es h r hr
    simp only [eligibleLoop] at h
    by_cases hlp : x.last_posted_at = ""
    · rw [if_pos hlp] at h
      cases hrest : eligibleLoop parse cutoff rest with
      | error e =>
        rw [hrest] at h
        cases h
      | ok es2 =>
        rw [hrest] at h
        cases h
        rcases List.mem_cons.mp hr with rfl | hr2
        · exact ⟨by simp, fun hic => hic.1 hlp⟩
        · obtain ⟨hm, hnc⟩ := ih es2 hrest r hr2
          exact ⟨by simp [hm], hnc⟩
    · rw [if_neg hlp] at h
      cases hp : parse x.last_posted_at with
      | err =>
        rw [hp] at h
        simp only [] at h
        cases hrest : eligibleLoop parse cutoff rest with
        | error e =>
          rw [hrest] at h
          cases h
        | ok es2 =>
          rw [hrest] at h
          cases h
          rcases List.mem_cons.mp hr with rfl | hr2
          · refine ⟨by simp, fun hic => ?_⟩
            obtain ⟨-, t, haw, -⟩ := hic
            rw [hp] at haw
            cases haw
          · obtain ⟨hm, hnc⟩ := ih es2 hrest r hr2
            exact ⟨by simp [hm], hnc⟩
      | naive =>
        rw [hp] at h
        simp only [] at h
        cases h
      | aware t =>
        rw [hp] at h
        simp only [] at h
        by_cases hct : t ≤ cutoff
        · rw [if_pos hct] at h
          cases hrest : eligibleLoop parse cutoff rest with
          | error e =>
            rw [hrest] at h
            cases h
          | ok es2 =>
            rw [hrest] at h
            cases h
            rcases List.mem_cons.mp hr with rfl | hr2
            · refine ⟨by simp, fun hic => ?_⟩
              obtain ⟨-, t2, haw, hgt⟩ := hic
              rw [hp] at haw
              cases haw
              omega
            · obtain ⟨hm, hnc⟩ := ih es2 hrest r hr2
              exact ⟨by simp [hm], hnc⟩
        · rw [if_neg hct] at h
          obtain ⟨hm, hnc⟩ := ih es h r hr
          exact ⟨by simp [hm], hnc⟩

theorem eligibleLoop_empty_all (parse : String → IsoParse) (cutoff : Int) :
    ∀ recs : List QRec, eligibleLoop parse cutoff recs = .ok [] →
      ∀ r ∈ recs, inCooldown parse cutoff r := by
  intro recs
  induction recs with
  | nil => simp
  | cons x rest ih =>
    intro h r hr
    simp only [eligibleLoop] at h
    by_cases hlp : x.last_posted_at = ""
    · rw [if_pos hlp] at h
      cases hrest : eligibleLoop parse cutoff rest with
      | error e => rw [hrest] at h; cases h
      | ok es2 => rw [hrest] at h; cases h
    · rw [if_neg hlp] at h
      cases hp : parse x.last_posted_at with
      | err =>
        rw [hp] at h
        simp only [] at h
        cases hrest : eligibleLoop parse cutoff rest with
        | error e => rw [hrest] at h; cases h
        | ok es2 => rw [hrest] at h; cases h
      | naive =>
        rw [hp] at h
        simp only [] at h
        cases h
      | aware t =>
        rw [hp] at h
        simp only [] at h
        by_cases hct : t ≤ cutoff
        · rw [if_pos hct] at h
          cases hrest : eligibleLoop parse cutoff rest with
          | error e => rw [hrest] at h; cases h
          | ok es2 => rw [hrest] at h; cases h
        · rw [if_neg hct] at h
          rcases List.mem_cons.mp hr with rfl | hr2
          · exact ⟨hlp, t, hp, by omega⟩
          · exact ih h r hr2

theorem eligibleLoop_no_naive_ok (parse : String → IsoParse) (cutoff : Int) :
    ∀ recs : List QRec,
      (∀ r ∈ recs, r.last_posted_at = "" ∨ parse r.last_posted_at ≠ .naive) →
      ∃ es, eligibleLoop parse cutoff recs = .ok es := by
  intro recs
  induction recs with
  | nil => exact fun _ => ⟨[], rfl⟩
  | cons x rest ih =>
    intro hno
    obtain ⟨es2, hes2⟩ := ih (fun r hr => hno r (by simp [hr]))
    simp only [eligibleLoop]
    by_cases hlp : x.last_posted_at = ""
    · rw [if_pos hlp, hes2]
      exact ⟨x :: es2, rfl⟩
    · rw [if_neg hlp]
      cases hp : parse x.last_posted_at with
      | err =>
        rw [hes2]
        exact ⟨x :: es2, rfl⟩
      | naive =>
        rcases hno x (by simp) with h | h
        · exact absurd h hlp
        · exact absurd hp h
      | aware t =>
        simp only []
        by_cases hct : t ≤ cutoff
        · rw [if_pos hct, hes2]
          exact ⟨x :: es2, rfl⟩
        · rw [if_neg hct]
          exact ⟨es2, hes2⟩

theorem eligibleLoop_err_mem (parse : String → IsoParse) (cutoff : Int) :
    ∀ (recs es : List QRec) (r : QRec), r ∈ recs → r.last_posted_at ≠ "" →
      parse r.last_posted_at = .err → eligibleLoop parse cutoff recs = .ok es →
      r ∈ es := by
  intro recs
  induction recs with
  | nil => simp
  | cons x rest ih =>
    intro es r hr hlp hp h
    simp only [eligibleLoop] at h
    rcases List.mem_cons.mp hr with rfl | hr2
    · rw [if_neg hlp, hp] at h
      cases hrest : eligibleLoop parse cutoff rest with
      | error e => rw [hrest] at h; cases h
      | ok es2 =>
        rw [hrest] at h
        cases h
        simp
    · by_cases hlpx : x.last_posted_at = ""
      · rw [if_pos hlpx] at h
        cases hrest : eligibleLoop parse cutoff rest with
        | error e => rw [hrest] at h; cases h
        | ok es2 =>
          rw [hrest] at h
          cases h
          simp [ih es2 r hr2 hlp hp hrest]
      · rw [if_neg hlpx] at h
        cases hpx : parse x.last_posted_at with
        | err =>
          rw [hpx] at h
          simp only [] at h
          cases hrest : eligibleLoop parse cutoff rest with
          | error e => rw [hrest] at h; cases h
          | ok es2 =>
            rw [hrest] at h
            cases h
            simp [ih es2 r hr2 hlp hp hrest]
        | naive =>
          rw [hpx] at h
          simp only [] at h
          cases h
        | aware t =>
          rw [hpx] at h
          simp only [] at h
          by_cases hct : t ≤ cutoff
          · rw [if_pos hct] at h
            cases hrest : eligibleLoop parse cutoff rest with
            | error e => rw [hrest] at h; cases h
            | ok es2 =>
              rw [hrest] at h
              cases h
              simp [ih es2 r hr2 hlp hp hrest]
          · rw [if_neg hct] at h
            exact ih es r hr2 hlp hp h

theorem eligibleLoop_error_naive (parse : String → IsoParse) (cutoff : Int) :
    ∀ recs : List QRec, eligibleLoop parse cutoff recs = .error () →
      ∃ r ∈ recs, r.last_posted_at ≠ "" ∧ parse r.last_posted_at = .naive := by
  intro recs
  induction recs with
  | nil =>
    intro h
    cases h
  | cons x rest ih =>
    intro h
    simp only [eligibleLoop] at h
    by_cases hlp : x.last_posted_at = ""
    · rw [if_pos hlp] at h
      cases hrest : eligibleLoop parse cutoff rest with
      | error e =>
        obtain ⟨r, hr, h1, h2⟩ := ih hrest
        exact ⟨r, by simp [hr], h1, h2⟩
      | ok es2 => rw [hrest] at h; cases h
    · rw [if_neg hlp] at h
      cases hp : parse x.last_posted_at with
      | err =>
        rw [hp] at h
        simp only [] at h
        cases hrest : eligibleLoop parse cutoff rest with
        | error e =>
          obtain ⟨r, hr, h1, h2⟩ := ih hrest
          exact ⟨r, by simp [hr], h1, h2⟩
        | ok es2 => rw [hrest] at h; cases h
      | naive => exact ⟨x, by simp, hlp, hp⟩
      | aware t =>
        rw [hp] at h
        simp only [] at h
        by_cases hct : t ≤ cutoff
        · rw [if_pos hct] at h
          cases hrest : eligibleLoop parse cutoff rest with
          | error e =>
            obtain ⟨r, hr, h1, h2⟩ := ih hrest
            exact ⟨r, by simp [hr], h1, h2⟩
          | ok es2 => rw [hrest] at h; cases h
        · rw [if_neg hct] at h
          obtain ⟨r, hr, h1, h2⟩ := ih h
          exact ⟨r, by simp [hr], h1, h2⟩

theorem minFold_mem :
    ∀ (l : List QRec) (r : QRec),
      (l.foldl (fun acc x => if sortKey x < sortKey acc then x else acc) r) ∈ r :: l := by
  intro l
  induction l with
  | nil => simp
  | cons x l ih =>
    intro r
    rw [List.foldl_cons]
    rcases List.mem_cons.mp (ih (if sortKey x < sortKey r then x else r)) with heq | hm
    · rw [heq]
      split <;> simp
    · simp [hm]

theorem minFold_le :
    ∀ (l : List QRec) (r r2 : QRec), r2 ∈ r :: l →
      sortKey (l.foldl (fun acc x => if sortKey x < sortKey acc then x else acc) r) ≤
        sortKey r2 := by
  intro l
  induction l with
  | nil =>
    intro r r2 h
    simp at h
    subst h
    rw [List.foldl_nil]
  | cons x l ih =>
    intro r r2 h
    rw [List.foldl_cons]
    have hhead : sortKey (l.foldl (fun acc x => if sortKey x < sortKey acc then x else acc)
        (if sortKey x < sortKey r then x else r)) ≤
        sortKey (if sortKey x < sortKey r then x else r) :=
      ih _ _ (by simp)
    rcases List.mem_cons.mp h with rfl | h2
    · refine le_trans hhead ?_
      split
      · next hlt => exact le_of_lt hlt
      · exact le_refl _
    · rcases List.mem_cons.mp h2 with rfl | h3
      · refine le_trans hhead ?_
        split
        · exact le_refl _
        · next hnlt => exact le_of_not_lt hnlt
      · exact ih _ r2 (by simp [h3])

/-- C3 (amended).  `pick_for_post` returns `none` on an empty store; a
successfully returned record always comes from the store, and it is within
cooldown only in the fallback case, in which every record of the store is
within cooldown and the returned record is one whose `last_posted_at`
*string* is lexicographically minimal (empty mapped to the far-future key
`"9999-12-31T00:00:00Z"`) — which need not be the chronologically oldest
when timestamps carry different UTC offsets. -/
theorem pick_for_post_cooldown_C3 (parse : String → IsoParse)
    (now cooldown_days : Int) (recs : List QRec) (k : Nat) :
    (recs = [] → pick_for_post parse now recs cooldown_days k = .ok none) ∧
    (∀ r, pick_for_post parse now recs cooldown_days k = .ok (some r) →
       r ∈ recs ∧
       (inCooldown parse (now - 86400 * cooldown_days) r →
          (∀ r2 ∈ recs, inCooldown parse (now - 86400 * cooldown_days) r2) ∧
          (∀ r2 ∈ recs, sortKey r ≤ sortKey r2))) := by
  cases hloop : eligibleLoop parse (now - 86400 * cooldown_days) recs with
  | error e =>
    have hpick : pick_for_post parse now recs cooldown_days k = .error () := by
      unfold pick_for_post
      rw [hloop]
    constructor
    · rintro rfl
      rw [show eligibleLoop parse (now - 86400 * cooldown_days) [] = .ok [] from rfl] at hloop
      cases hloop
    · intro r h
      rw [hpick] at h
      cases h
  | ok es =>
    cases es with
    | nil =>
      have hpick : pick_for_post parse now recs cooldown_days k =
          (if recs = [] then .ok none else .ok (minByKey recs)) := by
        unfold pick_for_post
        rw [hloop]
      constructor
      · intro hrecs
        rw [hpick, if_pos hrecs]
      · intro r h
        rw [hpick] at h
        by_cases hrecs : recs = []
        · rw [if_pos hrecs] at h
          cases h
        · rw [if_neg hrecs] at h
          obtain ⟨x, l, rfl⟩ := List.exists_cons_of_ne_nil hrecs
          unfold minByKey at h
          injection h with h
          injection h with h
          subst h
          refine ⟨List.mem_cons.mpr ?_, fun _ => ⟨eligibleLoop_empty_all parse _ _ hloop, ?_⟩⟩
          · exact List.mem_cons.mp (minFold_mem l x)
          · exact fun r2 hr2 => minFold_le l x r2 hr2
    | cons e es2 =>
      have hpick : pick_for_post parse now recs cooldown_days k =
          .ok ((e :: es2).get? (k % (e :: es2).length)) := by
        unfold pick_for_post
        rw [hloop]
      constructor
      · rintro rfl
        rw [show eligibleLoop parse (now - 86400 * cooldown_days) [] = .ok [] from rfl] at hloop
        cases hloop
      · intro r h
        rw [hpick] at h
        injection h with h
        have hm := List.get?_mem h
        obtain ⟨hmem, hnc⟩ := eligibleLoop_ok_mem parse _ recs _ hloop r hm
        exact ⟨hmem, fun hic => absurd hic hnc⟩

/-- C3 witness: the amended theorem applied to the empty store, with the
emptiness hypothesis discharged. -/
theorem pick_for_post_cooldown_C3_witness :
    pick_for_post cxParse 20000 [] 1 0 = .ok none :=
  (pick_for_post_cooldown_C3 cxParse 20000 1 [] 0).1 rfl

/-- C3 counterexample: in the all-in-cooldown fallback case the code picks
the record whose `last_posted_at` *string* sorts first, not the oldest
one.  With `now` 20000 s into 2026-01-01 UTC and a 1-day cooldown, both
records are within cooldown; `cxRecB` was posted at 3600 s (older) and
`cxRecA` at 18000 s, yet `pick_for_post` returns `cxRecA` because
`"...T05:00:00+00:00" < "...T10:00:00+09:00"` as strings. -/
theorem pick_for_post_oldest_C3_counterexample :
    pick_for_post cxParse 20000 [cxRecA, cxRecB] 1 0 = .ok (some cxRecA) ∧
    cxParse cxRecA.last_posted_at = .aware 18000 ∧
    cxParse cxRecB.last_posted_at = .aware 3600 ∧
    ((20000 : Int) - 86400 * 1 < 3600 ∧ (3600 : Int) < 18000) := by
  refine ⟨by rfl, by decide, by decide, by norm_num⟩

/-- C10.  A record whose stored `last_posted_at` is a non-empty string
that `datetime.fromisoformat` rejects is treated as eligible regardless of
`cooldown_days` — some random draw returns exactly that record (provided
no *other* record holds a parseable offset-naive timestamp, the only
situation in which the surrounding comparison raises); and whenever
`pick_for_post` does raise, the cause is such an offset-naive timestamp,
never a plain parse failure. -/
theorem pick_unparseable_eligible_C10 (parse : String → IsoParse)
    (now cooldown_days : Int) (recs : List QRec) (r : QRec) :
    (r ∈ recs → r.last_posted_at ≠ "" → parse r.last_posted_at = .err →
      (∀ r2 ∈ recs, r2.last_posted_at = "" ∨ parse r2.last_posted_at ≠ .naive) →
      ∃ k, pick_for_post parse now recs cooldown_days k = .ok (some r)) ∧
    (∀ k, pick_for_post parse now recs cooldown_days k = .error () →
      ∃ r2 ∈ recs, r2.last_posted_at ≠ "" ∧ parse r2.last_posted_at = .naive) := by
  constructor
  · intro hr hlp hp hno
    obtain ⟨es, hes⟩ := eligibleLoop_no_naive_ok parse (now - 86400 * cooldown_days) recs hno
    have hmem : r ∈ es := eligibleLoop_err_mem parse _ recs es r hr hlp hp hes
    refine ⟨es.indexOf r, ?_⟩
    cases es with
    | nil => simp at hmem
    | cons e es2 =>
      have hpick : pick_for_post parse now recs cooldown_days ((e :: es2).indexOf r) =
          .ok ((e :: es2).get? ((e :: es2).indexOf r % (e :: es2).length)) := by
        unfold pick_for_post
        rw [hes]
      rw [hpick]
      have hlt : (e :: es2).indexOf r < (e :: es2).length := List.indexOf_lt_length.mpr hmem
      rw [Nat.mod_eq_of_lt hlt, List.get?_eq_get hlt, List.indexOf_get]
  · intro k h
    cases hloop : eligibleLoop parse (now - 86400 * cooldown_days) recs with
    | error e =>
      exact eligibleLoop_error_naive parse _ recs (by rw [hloop])
    | ok es =>
      exfalso
      cases es with
      | nil =>
        have hpick : pick_for_post parse now recs cooldown_days k =
            (if recs = [] then .ok none else .ok (minByKey recs)) := by
          unfold pick_for_post
          rw [hloop]
        rw [hpick] at h
        by_cases hrecs : recs = []
        · rw [if_pos hrecs] at h
          cases h
        · rw [if_neg hrecs] at h
          obtain ⟨x, l, rfl⟩ := List.exists_cons_of_ne_nil hrecs
          unfold minByKey at h
          cases h
      | cons e es2 =>
        have hpick : pick_for_post parse now recs cooldown_days k =
            .ok ((e :: es2).get? (k % (e :: es2).length)) := by
          unfold pick_for_post
          rw [hloop]
        rw [hpick] at h
        cases h

/-- C10 witness: a store holding one record with a non-empty unparseable
`last_posted_at`; all hypotheses are discharged concretely and some random
draw returns exactly that record. -/
theorem pick_unparseable_eligible_C10_witness :
    cxRecU.last_posted_at ≠ "" ∧ cxParse cxRecU.last_posted_at = .err ∧
    ∃ k, pick_for_post cxParse 20000 [cxRecU] 5 k = .ok (some cxRecU) :=
  ⟨by decide, by decide,
   (pick_unparseable_eligible_C10 cxParse 20000 5 [cxRecU] cxRecU).1
     (by simp) (by decide) (by decide) (by decide)⟩

/-!
Claim C9: dry-run mode never invokes the posting collaborator, while text
production, sanitisation and truncation still happen and are printed.
-/

theorem postCmd_dry_trace (cfg : Config) (dr : Option Bool) (prompt eng : String)
    (prov olla hf : Option String) (k : Nat) (tid : Option String)
    (hdry : dr.getD cfg.dry_run_default = true) :
    postCmd cfg dr prompt eng prov olla hf k tid =
      if pyLower eng ∉ ENGINE_CHOICES then [.badParam]
      else if generate cfg prov olla hf k prompt eng = "" then
        [.printed "[error] Empty generation result; not posting."]
      else [.printed (generate cfg prov olla hf k prompt eng),
            .printed "[dry-run] Skipping post."] := by
  simp only [postCmd, hdry]
  by_cases hb : pyLower eng ∉ ENGINE_CHOICES
  · rw [if_pos hb, if_pos hb]
  · rw [if_neg hb, if_neg hb]
    by_cases hg : generate cfg prov olla hf k prompt eng = ""
    · rw [if_pos hg, if_pos hg]
    · rw [if_neg hg, if_neg hg]
      simp

/-- C9.  When dry-run is in effect (flag `--dry-run`, or no flag and the
config default on), neither the `post` command nor the `post-quote-image`
command ever invokes the posting collaborator (`post_tweet` /
`upload_media_and_post`); candidate-text production, sanitisation and
truncation still happen and the resulting final text is printed. -/
theorem dry_run_no_posting_C9 (cfg : Config) (dr : Option Bool)
    (prompt eng : String) (prov olla hf : Option String) (k : Nat)
    (tid : Option String) (parse : String → IsoParse) (now : Int)
    (recs : List QRec) (kr : Nat) (tid2 : Option String)
    (hdry : dr.getD cfg.dry_run_default = true) :
    (∀ t, Ev.postTweetCall t ∉ postCmd cfg dr prompt eng prov olla hf k tid ∧
          Ev.uploadMediaCall t ∉ postCmd cfg dr prompt eng prov olla hf k tid) ∧
    (∀ t, Ev.postTweetCall t ∉ postQuoteImageCmd cfg dr parse now recs kr tid2 ∧
          Ev.uploadMediaCall t ∉ postQuoteImageCmd cfg dr parse now recs kr tid2) ∧
    (pyLower eng ∈ ENGINE_CHOICES → generate cfg prov olla hf k prompt eng ≠ "" →
      Ev.printed (generate cfg prov olla hf k prompt eng) ∈
        postCmd cfg dr prompt eng prov olla hf k tid) ∧
    (∀ r, pick_for_post parse now recs 14 kr = .ok (some r) →
      _truncate_to_limit (_sanitize_no_emdash
          (if pyStrip r.author ≠ "" then pyStrip r.text ++ " --- " ++ pyStrip r.author
           else pyStrip r.text)) cfg.max_length ≠ "" →
      Ev.printed (_truncate_to_limit (_sanitize_no_emdash
          (if pyStrip r.author ≠ "" then pyStrip r.text ++ " --- " ++ pyStrip r.author
           else pyStrip r.text)) cfg.max_length) ∈
        postQuoteImageCmd cfg dr parse now recs kr tid2) := by
  refine ⟨?_, ?_, ?_, ?_⟩
  · intro t
    rw [postCmd_dry_trace cfg dr prompt eng prov olla hf k tid hdry]
    constructor
    · split
      · simp
      · split <;> simp
    · split
      · simp
      · split <;> simp
  · intro t
    simp only [postQuoteImageCmd, hdry]
    cases hpick : pick_for_post parse now recs 14 kr with
    | error e => simp
    | ok o =>
      cases o with
      | none => simp
      | some r =>
        constructor
        · split
          · simp
          · simp
          · split_ifs <;> simp
        · split
          · simp
          · simp
          · split_ifs <;> simp
  · intro hin hg
    rw [postCmd_dry_trace cfg dr prompt eng prov olla hf k tid hdry]
    rw [if_neg (by simpa using hin), if_neg hg]
    simp
  · intro r hpick htw
    simp only [postQuoteImageCmd, hdry]
    rw [hpick]
    simp only []
    rw [if_neg htw]
    simp

/-- C9 witness: with dry-run forced on, the `post` command with a
successful provider engine prints the generated text and performs no
posting call; the `post-quote-image` command on an empty store performs no
posting call either. -/
theorem dry_run_no_posting_C9_witness :
    ((some true : Option Bool).getD (⟨220, false⟩ : Config).dry_run_default = true) ∧
    Ev.postTweetCall "x" ∉
      postCmd ⟨220, false⟩ (some true) "p" "auto" (some "Cats sleep a lot") none none 0 none ∧
    Ev.uploadMediaCall "x" ∉
      postQuoteImageCmd ⟨220, false⟩ (some true) cxParse 20000 [] 0 none ∧
    Ev.printed (generate ⟨220, false⟩ (some "Cats sleep a lot") none none 0 "p" "auto") ∈
      postCmd ⟨220, false⟩ (some true) "p" "auto" (some "Cats sleep a lot") none none 0 none := by
  have h := dry_run_no_posting_C9 ⟨220, false⟩ (some true) "p" "auto"
    (some "Cats sleep a lot") none none 0 none cxParse 20000 [] 0 none rfl
  exact ⟨rfl, (h.1 "x").1, (h.2.1 "x").2, h.2.2.1 (by decide) (by decide)⟩

end LifeMaxxer
